import Mathlib

/-!
Verification development for the liquibase-changes repository.

Part I embeds the executable JavaScript of the repository:
the three k6 load-test scripts (their `simulateKinesisPutRecord` stubs
and the main iteration bodies) and the S-Docs template upserter
(`scripts/sdocs-upserter.js`).

Part II models, from the specification, the correlation engine
(TraceRegistry / StageRecorder / TimeoutSweeper / StatsAggregator)
that the spec designs but the repository does not implement.
-/

namespace LiquibaseChanges

/-- Generic association-list lookup keyed by a type with decidable equality.
Mirrors first-match JavaScript object-field access used throughout. -/
def lookupT {κ : Type} {α : Type} [DecidableEq κ] : List (κ × α) → κ → Option α
  | [], _ => none
  | (k, v) :: rest, key => if k = key then some v else lookupT rest key

/-- Keys of an association list. -/
def keysOf {κ : Type} {α : Type} (l : List (κ × α)) : List κ :=
  l.map (·.1)

/-- Rendering of a rational number for embedding in message strings.
The exact text is immaterial to every property below; only definedness is. -/
def qstr (q : ℚ) : String :=
  toString q.num ++ ("/" ++ toString q.den)

/-! ### k6 load-test scripts -/

/-- Shape of the object returned by the `simulateKinesisPutRecord` stubs:
an HTTP-like status and a `json(key)` accessor.  A JavaScript `undefined`
result of `json` is modelled as `none`. -/
structure KResult where
  status : Nat
  json : String → Option String

/-- Embeds `simulateKinesisPutRecord` of `k6-test-scripts/baseline-100b.js`
(lines 108-138).  The url/payload/params locals of the source are dead
(never used in the returned value) and are omitted.  `now` models
`Date.now()` and `rSeq` the `Math.random()` draw used in the sequence
number; the returned object is a hardcoded success regardless of the
three arguments. -/
def simulateKinesisPutRecord100b (streamName data partitionKey : String)
    (now : Nat) (rSeq : ℚ) : KResult :=
  { status := 200
    json := fun key =>
      if key = "SequenceNumber" then
        some ("seq-" ++ toString now ++ ("-" ++ qstr rSeq))
      else
        none }

/-- Embeds `simulateKinesisPutRecord` of `k6-test-scripts/baseline-500b.js`
(lines 131-142): a hardcoded success object, same shape as the 100-byte
variant. -/
def simulateKinesisPutRecord500b (streamName data partitionKey : String)
    (now : Nat) (rSeq : ℚ) : KResult :=
  { status := 200
    json := fun key =>
      if key = "SequenceNumber" then
        some ("seq-" ++ toString now ++ ("-" ++ qstr rSeq))
      else
        none }

/-- Embeds `getCurrentSpikePhase` of `k6-test-scripts/spike-test.js`:
phase name from elapsed milliseconds since test start. -/
def getCurrentSpikePhase (elapsed : Nat) : String :=
  if elapsed < 120000 then "normal-baseline"
  else if elapsed < 150000 then "ramping-spike"
  else if elapsed < 450000 then "spike"
  else if elapsed < 480000 then "ramping-normal"
  else if elapsed < 780000 then "recovery"
  else "ramp-down"

/-- Embeds `simulateKinesisPutRecord` of `k6-test-scripts/spike-test.js`
(lines 111-133).  Unlike the two baseline scripts, this stub draws
`Math.random()` (modelled as `rFail`) against a phase-dependent failure
rate (5 percent during the spike phase, 1 percent otherwise) and returns
a throttled 429 response with an undefined json accessor when the draw
falls below the rate. -/
def simulateKinesisPutRecordSpike (streamName data partitionKey : String)
    (elapsed : Nat) (rFail : ℚ) (now : Nat) (rSeq : ℚ) : KResult :=
  if rFail < (if getCurrentSpikePhase elapsed = "spike" then (5 : ℚ) / 100 else 1 / 100) then
    { status := 429, json := fun _ => none }
  else
    { status := 200
      json := fun key =>
        if key = "SequenceNumber" then
          some ("seq-" ++ toString now ++ ("-" ++ qstr rSeq))
        else
          none }

/-- Embeds the two `check` predicates of the main iteration function of
`baseline-100b.js` (lines 79-82): status is 200 and the sequence number
is defined. -/
def check100b (r : KResult) : Bool :=
  decide (r.status = 200) && (r.json "SequenceNumber").isSome

/-- Outcome of one iteration of the `default` function of
`baseline-100b.js` (lines 53-95): whether the combined check succeeded,
how much the `kinesis_records_failed` counter is incremented, and whether
the `console.error` line runs. -/
structure IterOutcome where
  success : Bool
  failedInc : Nat
  errorLogged : Bool
deriving DecidableEq, Repr

/-- Embeds the body of the `default` function of `baseline-100b.js`:
calls the stub, runs the checks, and increments `kinesis_records_failed`
and logs an error exactly when the check fails. -/
def iteration100b (streamName payloadStr eventId : String)
    (now : Nat) (rSeq : ℚ) : IterOutcome :=
  let result := simulateKinesisPutRecord100b streamName payloadStr eventId now rSeq
  let success := check100b result
  { success := success
    failedInc := if success then 0 else 1
    errorLogged := !success }

/-- Total of the `kinesis_records_failed` counter over a whole run of
`baseline-100b.js`, one tuple of inputs per iteration. -/
def recordsFailed100b (inputs : List (String × String × String × Nat × ℚ)) : Nat :=
  (inputs.map (fun i =>
    (iteration100b i.1 i.2.1 i.2.2.1 i.2.2.2.1 i.2.2.2.2).failedInc)).sum

/-! ### S-Docs template upserter (`scripts/sdocs-upserter.js`) -/

/-- JSON value as produced by `JSON.parse`.  Numbers are modelled as
rationals (the scripts never rely on float-specific behaviour). -/
inductive JsonVal where
  | null : JsonVal
  | bool (b : Bool) : JsonVal
  | num (q : ℚ) : JsonVal
  | str (s : String) : JsonVal
  | arr (xs : List JsonVal) : JsonVal
  | obj (fields : List (String × JsonVal)) : JsonVal

/-- JavaScript member access `v.name`: a field lookup on objects,
`undefined` (`none`) otherwise.  (Access on `null` throws a TypeError in
JavaScript; in `upsertTemplate` that lands in the same catch block and
produces the same `false` outcome as the `none` path here.) -/
def getField : JsonVal → String → Option JsonVal
  | .obj fields, name => lookupT fields name
  | _, _ => none

/-- JavaScript truthiness of `v.Name` as tested by
`if (!templateData.Name)`: `undefined`, `null`, `false`, `0` and the
empty string are falsy. -/
def truthy : Option JsonVal → Bool
  | none => false
  | some .null => false
  | some (.bool b) => b
  | some (.num q) => decide (q ≠ 0)
  | some (.str s) => decide (s ≠ "")
  | some (.arr _) => true
  | some (.obj _) => true

/-- Result of `fs.readFileSync` combined with `JSON.parse` for one path:
the read throws, the parse throws, or a JSON value is produced. -/
inductive FileRead where
  | unreadable : FileRead
  | notJson : FileRead
  | json (v : JsonVal) : FileRead

/-- Observable side effects of the upserter.  `sfApiCall` is the effect a
real Salesforce upsert would emit; the embedded code never produces it. -/
inductive Effect where
  | log (msg : String) : Effect
  | fsRead (path : String) : Effect
  | sfApiCall (desc : String) : Effect
deriving DecidableEq

/-- Whether an effect is an external Salesforce API call. -/
def isApiCall : Effect → Bool
  | .sfApiCall _ => true
  | _ => false

/-- Embeds `upsertTemplate` of `scripts/sdocs-upserter.js` (lines 88-110):
logs, reads the file, parses it, validates `templateData.Name` with the
JavaScript truthiness test, logs success and returns `true`; every throw
is caught, logged and turned into `false`.  The filesystem is passed in
as a map from path to read outcome.  Log message texts follow the source
up to presentation details (basename, interpolation). -/
def upsertTemplate (fs : String → FileRead) (templateFile : String) :
    Bool × List Effect :=
  match fs templateFile with
  | .unreadable =>
      (false, [.log ("Processing: " ++ templateFile), .fsRead templateFile,
               .log ("Error upserting template: read failed")])
  | .notJson =>
      (false, [.log ("Processing: " ++ templateFile), .fsRead templateFile,
               .log ("Error upserting template: invalid JSON")])
  | .json v =>
      if truthy (getField v "Name") then
        (true, [.log ("Processing: " ++ templateFile), .fsRead templateFile,
                .log ("Template Name logged"), .log ("Template upserted successfully")])
      else
        (false, [.log ("Processing: " ++ templateFile), .fsRead templateFile,
                 .log ("Error upserting template: Template must have a Name field")])

/-- Outcome of `getConnectedOrg` of `scripts/sdocs-upserter.js`
(lines 47-63): a username from one of the two CLIs, or the thrown
`Unable to detect connected Salesforce org` error. -/
inductive OrgDetect where
  | connected (username : String) : OrgDetect
  | noOrg : OrgDetect
deriving DecidableEq

/-- JavaScript test for the literal json suffix of a file name, computed
over the character list so concrete instances evaluate. -/
def hasJsonSuffix (f : String) : Bool :=
  decide (f.data.reverse.take 5 = (".json").data.reverse)

/-- Embeds `getTemplateFiles` (lines 68-83): an absent directory yields
the empty list (after creating the directory); otherwise the `.json`
entries of the listing. -/
def getTemplateFiles (dirListing : Option (List String)) : List String :=
  match dirListing with
  | none => []
  | some entries => entries.filter hasJsonSuffix

/-- Embeds the exit behaviour of `main` (lines 115-176): `true` means
`process.exit(1)` runs.  The catch block fires when org detection throws;
the empty-files branch returns normally; otherwise the per-file failure
count decides the exit. -/
def mainExitsNonzero (org : OrgDetect) (dirListing : Option (List String))
    (fs : String → FileRead) : Bool :=
  match org with
  | .noOrg => true
  | .connected _ =>
      let files := getTemplateFiles dirListing
      if files.isEmpty then false
      else
        let failureCount := files.countP (fun f => !(upsertTemplate fs f).1)
        decide (0 < failureCount)

/-! ### Correlation engine (modelled from the spec) -/

/-- Modelled from the spec: trace status (spec section 3), missing from the
repository together with the whole correlation engine. -/
inductive TStatus where
  | inProgress : TStatus
  | outOfOrder : TStatus
  | completed : TStatus
  | timedOut : TStatus
deriving DecidableEq, Repr

/-- Modelled from the spec: one in-flight trace (spec section 3): start
timestamp, per-stage arrival timestamps, current status. -/
structure Trace where
  startedAt : Nat
  arrivals : List (String × Nat)
  status : TStatus
deriving DecidableEq, Repr

/-- Modelled from the spec: immutable snapshot of a trace at finalization
(spec section 3); durations are computed from the stored arrivals by the
aggregator below. -/
structure FinalizedTrace where
  traceId : String
  status : TStatus
  arrivals : List (String × Nat)
deriving DecidableEq, Repr

/-- Modelled from the spec: the result enumeration of
`TraceRegistry.recordArrival` (spec section 4.1), extended with the
`UnknownStage` locally-recovered error of section 7. -/
inductive RecordResult where
  | created : RecordResult
  | updated : RecordResult
  | duplicateArrival : RecordResult
  | outOfOrderRecorded : RecordResult
  | finalized : RecordResult
  | unknownStage : RecordResult
deriving DecidableEq, Repr

/-- Modelled from the spec: registry state.  `ingested` is the log of
`StatsAggregator.ingest` hand-offs, newest first; a trace id is treated
as already finalized exactly when it occurs in this log.  `duplicates`
is the observability counter for duplicate arrivals. -/
structure EngineState where
  live : List (String × Trace)
  ingested : List FinalizedTrace
  duplicates : Nat
deriving DecidableEq, Repr

/-- Initial engine state: no live traces, nothing ingested. -/
def initState : EngineState :=
  { live := [], ingested := [], duplicates := 0 }

/-- Index of a stage in the stage definition, if present. -/
def stageIdx (sd : List String) (s : String) : Option Nat :=
  sd.findIdx? (fun x => decide (x = s))

/-- Index of a stage, defaulting to zero; only applied to recorded stages,
which are always members of the stage definition. -/
def stageIdxD (sd : List String) (s : String) : Nat :=
  (stageIdx sd s).getD 0

/-- Highest stage index among the recorded arrivals. -/
def maxIdx (sd : List String) (arr : List (String × Nat)) : Nat :=
  arr.foldl (fun m p => max m (stageIdxD sd p.1)) 0

/-- Whether every stage of the definition has a recorded arrival.
Modelled from the spec: finalization as `Completed` requires the full
stage set (section 3 allows absent timestamps only for `TimedOut`, and
property P5 requires reverse-order arrivals to finalize with all three
timestamps), so the completion trigger of section 4.1 is read as
"the arrivals now cover the stage definition". -/
def covered (sd : List String) (arr : List (String × Nat)) : Bool :=
  sd.all (fun s => (lookupT arr s).isSome)

/-- Status carried into the finalized snapshot when a trace completes:
an out-of-order trace keeps `OutOfOrder` (spec property P5: the final
snapshot reflects the inversion), a clean one becomes `Completed`. -/
def finStatusOnComplete (tr : Trace) : TStatus :=
  if tr.status = TStatus.outOfOrder then TStatus.outOfOrder else TStatus.completed

/-- Pointwise update of the trace stored under a key; keys unchanged. -/
def updateT : List (String × Trace) → String → Trace → List (String × Trace)
  | [], _, _ => []
  | p :: rest, tid, tr =>
      if p.1 = tid then (tid, tr) :: updateT rest tid tr
      else p :: updateT rest tid tr

/-- Removal of every pair with the given key. -/
def removeT : List (String × Trace) → String → List (String × Trace)
  | [], _ => []
  | p :: rest, tid =>
      if p.1 = tid then removeT rest tid else p :: removeT rest tid

/-- Modelled from the spec: `TraceRegistry.recordArrival` (spec
section 4.1).  Unknown stages are dropped (section 7); arrivals for
already-finalized ids are duplicate no-ops (section 4.1 side effects);
a first arrival creates the trace; a repeated stage is a duplicate
no-op; a stage behind the highest recorded index marks the trace
out-of-order but still records the timestamp; once the arrivals cover
the stage definition the trace is finalized, removed from the live set
and appended to the ingest log (see `recordArrival`).  `appendArrival`
is the update of one live trace by a fresh stage arrival at index `idx`:
the timestamp is recorded and the status turns `OutOfOrder` when the
stage index is behind the highest recorded one. -/
def appendArrival (sd : List String) (idx : Nat) (tr : Trace) (stage : String)
    (ts : Nat) : Trace :=
  ⟨tr.startedAt, tr.arrivals ++ [(stage, ts)],
   if idx < maxIdx sd tr.arrivals then TStatus.outOfOrder else tr.status⟩

/-- Modelled from the spec: `TraceRegistry.recordArrival`, see the
comment on `appendArrival` above for the transition rules. -/
def recordArrival (sd : List String) (st : EngineState) (tid stage : String)
    (ts : Nat) : RecordResult × EngineState :=
  match stageIdx sd stage with
  | none => (RecordResult.unknownStage, st)
  | some idx =>
    if tid ∈ st.ingested.map (·.traceId) then
      (RecordResult.duplicateArrival, { st with duplicates := st.duplicates + 1 })
    else
      match lookupT st.live tid with
      | none =>
          if covered sd [(stage, ts)] then
            (RecordResult.finalized,
             { st with ingested :=
                ⟨tid, finStatusOnComplete ⟨ts, [(stage, ts)], TStatus.inProgress⟩,
                 [(stage, ts)]⟩ :: st.ingested })
          else
            (RecordResult.created,
             { st with live := (tid, ⟨ts, [(stage, ts)], TStatus.inProgress⟩) :: st.live })
      | some tr =>
          if (lookupT tr.arrivals stage).isSome then
            (RecordResult.duplicateArrival,
             { st with duplicates := st.duplicates + 1 })
          else
            if covered sd (appendArrival sd idx tr stage ts).arrivals then
              (RecordResult.finalized,
               { st with live := removeT st.live tid,
                         ingested :=
                  ⟨tid, finStatusOnComplete (appendArrival sd idx tr stage ts),
                   (appendArrival sd idx tr stage ts).arrivals⟩ :: st.ingested })
            else
              (if idx < maxIdx sd tr.arrivals then RecordResult.outOfOrderRecorded
               else RecordResult.updated,
               { st with live := updateT st.live tid (appendArrival sd idx tr stage ts) })

/-- Timestamp of the most recent stage arrival of a trace. -/
def lastActivity (tr : Trace) : Nat :=
  tr.arrivals.foldl (fun m p => max m p.2) 0

/-- Whether a trace has exceeded the per-stage deadline at time `now`
(spec section 4.1: time since the most recent stage arrival exceeds
`deadlinePerStage`). -/
def isStale (now deadline : Nat) (tr : Trace) : Bool :=
  decide (deadline < now - lastActivity tr)

/-- Modelled from the spec: `TraceRegistry.sweepTimeouts` (spec
section 4.1): every stale live trace is finalized as `TimedOut`, removed
from the live set, and the finalized list is handed to the aggregator
(appended to the ingest log). -/
def sweepTimeouts (st : EngineState) (now deadline : Nat) :
    List FinalizedTrace × EngineState :=
  let stale := st.live.filter (fun p => isStale now deadline p.2)
  let fresh := st.live.filter (fun p => !isStale now deadline p.2)
  let fins := stale.map (fun p => ⟨p.1, TStatus.timedOut, p.2.arrivals⟩)
  (fins, { st with live := fresh, ingested := fins ++ st.ingested })

/-- One externally visible operation on the registry: a stage arrival or
a timeout sweep.  A run is an arbitrary interleaving of these; the spec
requires per-trace serialization (section 5), so each operation is
atomic here. -/
inductive Op where
  | record (tid stage : String) (ts : Nat) : Op
  | sweep (now deadline : Nat) : Op
deriving DecidableEq, Repr

/-- State transition of a single operation. -/
def step (sd : List String) (st : EngineState) : Op → EngineState
  | Op.record tid stage ts => (recordArrival sd st tid stage ts).2
  | Op.sweep now deadline => (sweepTimeouts st now deadline).2

/-- Run of an operation sequence from the initial state. -/
def run (sd : List String) (ops : List Op) : EngineState :=
  ops.foldl (step sd) initState

/-- The canonical three-stage pipeline of the spec. -/
def sd3 : List String := ["ingest", "transform", "sink"]

/-! ### StatsAggregator (modelled from the spec) -/

/-- Modelled from the spec: running aggregate for one transition or for
end-to-end (spec section 3): count, min, max and a fixed-bucket
histogram. -/
structure StageStats where
  count : Nat
  minD : Option Int
  maxD : Option Int
  buckets : List Nat
deriving DecidableEq, Repr

/-- Logarithmic-style histogram bucket upper bounds in milliseconds
(spec section 4.4 suggests logarithmic buckets from 1ms to 60000ms). -/
def bucketBounds : List Int :=
  [1, 2, 5, 10, 25, 50, 100, 250, 500, 1000, 2500, 5000, 10000, 30000, 60000]

/-- Bucket index of a duration: the number of bounds not exceeding it. -/
def bucketIndex (d : Int) : Nat :=
  (bucketBounds.filter (fun b => decide (b ≤ d))).length

/-- Increment of the counter at one position of the histogram. -/
def bumpAt : List Nat → Nat → List Nat
  | [], _ => []
  | c :: rest, 0 => (c + 1) :: rest
  | c :: rest, n + 1 => c :: bumpAt rest n

/-- Fresh empty statistics record. -/
def initStats : StageStats :=
  { count := 0, minD := none, maxD := none
    buckets := List.replicate (bucketBounds.length + 1) 0 }

/-- Fold of one (already clamped) duration into a statistics record. -/
def foldD (stt : StageStats) (d : Int) : StageStats :=
  { count := stt.count + 1
    minD := some (match stt.minD with | none => d | some m => min m d)
    maxD := some (match stt.maxD with | none => d | some m => max m d)
    buckets := bumpAt stt.buckets (bucketIndex d) }

/-- Fold of a raw duration: clamp negatives to zero, then fold
(spec section 4.4). -/
def clampFold (stt : StageStats) (raw : Int) : StageStats :=
  foldD stt (max raw 0)

/-- Adjacent stage pairs of the stage definition. -/
def transitions (sd : List String) : List (String × String) :=
  sd.zip sd.tail

/-- Raw (unclamped) duration between two stages of a finalized trace,
defined when both timestamps are present. -/
def rawDuration (arr : List (String × Nat)) (s1 s2 : String) : Option Int :=
  match lookupT arr s1, lookupT arr s2 with
  | some t1, some t2 => some ((t2 : Int) - (t1 : Int))
  | _, _ => none

/-- Duration reported for a stage pair: raw duration clamped at zero. -/
def pairDuration (arr : List (String × Nat)) (s1 s2 : String) : Option Int :=
  (rawDuration arr s1 s2).map (fun raw => max raw 0)

/-- Raw end-to-end duration: first stage of the definition to its last. -/
def endToEndRaw (sd : List String) (arr : List (String × Nat)) : Option Int :=
  match sd.head?, sd.getLast? with
  | some s0, some sl => rawDuration arr s0 sl
  | _, _ => none

/-- Number of adjacent-pair negative raw durations of one finalized trace:
each is a clock-skew anomaly (spec section 4.4). -/
def countAnoms (sd : List String) (ft : FinalizedTrace) : Nat :=
  ((transitions sd).filter (fun p =>
    match rawDuration ft.arrivals p.1 p.2 with
    | some raw => decide (raw < 0)
    | none => false)).length

/-- Modelled from the spec: aggregator state (spec section 4.4):
per-transition statistics, end-to-end statistics, the clock-skew anomaly
counter and the outcome counters. -/
structure Aggregator where
  transStats : List ((String × String) × StageStats)
  endToEndStats : StageStats
  anomalies : Nat
  completedCount : Nat
  timedOutCount : Nat
  outOfOrderCount : Nat
deriving DecidableEq, Repr

/-- Fresh aggregator for a stage definition. -/
def initAgg (sd : List String) : Aggregator :=
  { transStats := (transitions sd).map (fun p => (p, initStats))
    endToEndStats := initStats
    anomalies := 0
    completedCount := 0
    timedOutCount := 0
    outOfOrderCount := 0 }

/-- Outcome counter update for one finalized status. -/
def bumpOutcome (A : Aggregator) (s : TStatus) : Aggregator :=
  match s with
  | TStatus.completed => { A with completedCount := A.completedCount + 1 }
  | TStatus.timedOut => { A with timedOutCount := A.timedOutCount + 1 }
  | TStatus.outOfOrder => { A with outOfOrderCount := A.outOfOrderCount + 1 }
  | TStatus.inProgress => A

/-- Per-transition part of `ingest`: each transition whose two
timestamps are present in the arrivals folds its clamped duration. -/
def updateTransStats (arr : List (String × Nat)) :
    List ((String × String) × StageStats) → List ((String × String) × StageStats)
  | [] => []
  | (p, stt) :: rest =>
      (p, match rawDuration arr p.1 p.2 with
          | none => stt
          | some raw => clampFold stt raw) :: updateTransStats arr rest

/-- Statistics part of `ingest` (spec section 4.4): per-transition
clamped folds, the end-to-end clamped fold, and this trace's clock-skew
anomaly count. -/
def ingestCore (sd : List String) (A : Aggregator) (ft : FinalizedTrace) :
    Aggregator :=
  { A with
    transStats := updateTransStats ft.arrivals A.transStats
    endToEndStats :=
      match endToEndRaw sd ft.arrivals with
      | none => A.endToEndStats
      | some raw => clampFold A.endToEndStats raw
    anomalies := A.anomalies + countAnoms sd ft }

/-- Modelled from the spec: `StatsAggregator.ingest` (spec section 4.4):
the statistics updates of `ingestCore` followed by the outcome counter
bump for the trace's status. -/
def ingestOne (sd : List String) (A : Aggregator) (ft : FinalizedTrace) :
    Aggregator :=
  bumpOutcome (ingestCore sd A ft) ft.status

/-- Aggregation of a whole list of finalized traces. -/
def ingestAll (sd : List String) (fts : List FinalizedTrace) : Aggregator :=
  fts.foldl (ingestOne sd) (initAgg sd)

/-- Reported minimum for one transition's statistics, if any samples. -/
def transMin (A : Aggregator) (p : String × String) : Option Int :=
  match lookupT A.transStats p with
  | some stt => stt.minD
  | none => none

/-! ## Theorems for the k6 scripts and the S-Docs upserter -/

/-- C1 counterexample: the claim that every invocation of every
`simulateKinesisPutRecord` stub returns a hardcoded success is false for
`spike-test.js`: with the `Math.random()` draw at 0 (below the 1 percent
baseline failure rate) the stub returns a throttled 429 response whose
json accessor yields no SequenceNumber. -/
theorem k6_spike_stub_throttles :
    (simulateKinesisPutRecordSpike "test-stream" "payload" "pk" 0 0 0 0).status = 429 ∧
    (simulateKinesisPutRecordSpike "test-stream" "payload" "pk" 0 0 0 0).json "SequenceNumber"
      = none := by
  have h0 : (0 : ℚ) < (if getCurrentSpikePhase 0 = "spike" then (5 : ℚ) / 100 else 1 / 100) := by
    rw [if_neg (by decide : ¬ getCurrentSpikePhase 0 = "spike")]
    norm_num
  constructor <;> · unfold simulateKinesisPutRecordSpike; rw [if_pos h0]

/-- C1 (amended): the stubs of `baseline-100b.js` and `baseline-500b.js`
return a hardcoded success (status 200 with a defined SequenceNumber)
for every invocation, regardless of arguments; the stub of
`spike-test.js` does so exactly when the random draw is at or above the
phase-dependent failure rate, and otherwise returns a 429 with an
undefined SequenceNumber. -/
theorem k6_stub_success_amended :
    (∀ sn d pk now r,
      (simulateKinesisPutRecord100b sn d pk now r).status = 200 ∧
      ((simulateKinesisPutRecord100b sn d pk now r).json "SequenceNumber").isSome = true) ∧
    (∀ sn d pk now r,
      (simulateKinesisPutRecord500b sn d pk now r).status = 200 ∧
      ((simulateKinesisPutRecord500b sn d pk now r).json "SequenceNumber").isSome = true) ∧
    (∀ sn d pk elapsed rFail now rSeq,
      ((if getCurrentSpikePhase elapsed = "spike" then (5 : ℚ) / 100 else 1 / 100) ≤ rFail →
        (simulateKinesisPutRecordSpike sn d pk elapsed rFail now rSeq).status = 200 ∧
        ((simulateKinesisPutRecordSpike sn d pk elapsed rFail now rSeq).json
          "SequenceNumber").isSome = true) ∧
      (rFail < (if getCurrentSpikePhase elapsed = "spike" then (5 : ℚ) / 100 else 1 / 100) →
        (simulateKinesisPutRecordSpike sn d pk elapsed rFail now rSeq).status = 429 ∧
        (simulateKinesisPutRecordSpike sn d pk elapsed rFail now rSeq).json "SequenceNumber"
          = none)) := by
  refine ⟨fun sn d pk now r => ⟨rfl, by simp [simulateKinesisPutRecord100b]⟩,
          fun sn d pk now r => ⟨rfl, by simp [simulateKinesisPutRecord500b]⟩,
          fun sn d pk elapsed rFail now rSeq => ⟨fun h => ?_, fun h => ?_⟩⟩
  · rw [simulateKinesisPutRecordSpike, if_neg (not_lt.mpr h)]
    exact ⟨rfl, by simp⟩
  · rw [simulateKinesisPutRecordSpike, if_pos h]
    exact ⟨rfl, rfl⟩

/-- Witness for the amended C1 theorem at a concrete spike-test input:
with elapsed 0 (phase normal-baseline, failure rate 1 percent) and the
draw exactly at the rate, the stub returns 200. -/
theorem k6_stub_success_amended_witness :
    (simulateKinesisPutRecordSpike "s" "d" "p" 0 (1 / 100) 7 (1 / 2)).status = 200 :=
  ((k6_stub_success_amended.2.2 "s" "d" "p" 0 (1 / 100) 7 (1 / 2)).1 (by
    rw [if_neg (by decide : ¬ getCurrentSpikePhase 0 = "spike")])).1

/-- C2 counterexample: a template file whose contents parse as JSON with
a `Name` field can still fail to upsert: the empty-string name is falsy
in JavaScript, so `upsertTemplate` throws and returns false. -/
theorem sdocs_upsert_empty_name :
    getField (JsonVal.obj [("Name", JsonVal.str "")]) "Name" = some (JsonVal.str "") ∧
    (upsertTemplate (fun _ => FileRead.json (JsonVal.obj [("Name", JsonVal.str "")]))
      "template-a.json").1 = false := by
  constructor <;> rfl

/-- C2 (amended): for every template file whose contents parse as JSON
with a truthy `Name` field (present and not the empty string, 0, false
or null), `upsertTemplate` returns true after only reading the file and
printing messages; no effect of the run is a Salesforce API call. -/
theorem sdocs_upsert_truthy_name (fs : String → FileRead) (f : String) (v : JsonVal)
    (hv : fs f = FileRead.json v) (hn : truthy (getField v "Name") = true) :
    (upsertTemplate fs f).1 = true ∧
    ∀ e ∈ (upsertTemplate fs f).2, isApiCall e = false := by
  constructor
  · simp [upsertTemplate, hv, hn]
  · intro e he
    simp only [upsertTemplate, hv, hn, if_true, List.mem_cons, List.not_mem_nil,
      or_false] at he
    rcases he with h | h | h | h <;> subst h <;> rfl

/-- Witness for the amended C2 theorem at a concrete readable template
with a nonempty name. -/
theorem sdocs_upsert_truthy_name_witness :
    (upsertTemplate (fun _ => FileRead.json (JsonVal.obj [("Name", JsonVal.str "T")]))
      "a.json").1 = true :=
  (sdocs_upsert_truthy_name
    (fun _ => FileRead.json (JsonVal.obj [("Name", JsonVal.str "T")]))
    "a.json" (JsonVal.obj [("Name", JsonVal.str "T")]) rfl rfl).1

/-- C8 counterexample: the claim that `upsertTemplate` returns false only
when the file is unreadable, not valid JSON, or lacking a `Name` field is
refuted by a readable, valid-JSON template whose `Name` field is the
number 0: the field is present, yet the result is false. -/
theorem sdocs_upsert_zero_name :
    (getField (JsonVal.obj [("Name", JsonVal.num 0)]) "Name").isSome = true ∧
    (upsertTemplate (fun _ => FileRead.json (JsonVal.obj [("Name", JsonVal.num 0)]))
      "template-b.json").1 = false := by
  constructor <;> rfl

/-- C8 (amended): `upsertTemplate` is total over file inputs, always
returning a boolean; it returns true exactly when the file parses as
JSON with a truthy `Name` field, and false whenever the file is
unreadable, not valid JSON, or the parsed JSON lacks a truthy `Name`
field. -/
theorem sdocs_upsert_result_characterization (fs : String → FileRead) (f : String) :
    (upsertTemplate fs f).1 = true ↔
      ∃ v, fs f = FileRead.json v ∧ truthy (getField v "Name") = true := by
  unfold upsertTemplate
  cases h : fs f with
  | unreadable => simp [h]
  | notJson => simp [h]
  | json v =>
      by_cases ht : truthy (getField v "Name") = true
      · simp [h, ht]
      · simp [h, ht]

/-- C9: in `baseline-100b.js` the failure branch of the main iteration
function is unreachable: the stub always yields status 200 with a
defined SequenceNumber, every iteration's combined check succeeds, the
`kinesis_records_failed` counter stays at zero over any run, and the
error log never fires. -/
theorem k6_baseline100_failure_unreachable :
    (∀ sn ps eid now r,
      (iteration100b sn ps eid now r).success = true ∧
      (iteration100b sn ps eid now r).failedInc = 0 ∧
      (iteration100b sn ps eid now r).errorLogged = false) ∧
    ∀ inputs, recordsFailed100b inputs = 0 := by
  have hbase : ∀ sn ps eid now r,
      (iteration100b sn ps eid now r).success = true ∧
      (iteration100b sn ps eid now r).failedInc = 0 ∧
      (iteration100b sn ps eid now r).errorLogged = false := by
    intro sn ps eid now r
    refine ⟨by simp [iteration100b, check100b, simulateKinesisPutRecord100b], ?_, ?_⟩ <;>
      simp [iteration100b, check100b, simulateKinesisPutRecord100b]
  refine ⟨hbase, ?_⟩
  intro inputs
  induction inputs with
  | nil => rfl
  | cons i rest ih =>
      simp only [recordsFailed100b, List.map_cons, List.sum_cons] at ih ⊢
      rw [(hbase i.1 i.2.1 i.2.2.1 i.2.2.2.1 i.2.2.2.2).2.1, ih]

/-- C10: the upserter's `main` calls `process.exit(1)` exactly when org
detection fails or at least one discovered template fails to upsert; an
absent or empty templates directory returns normally without a nonzero
exit. -/
theorem sdocs_main_exit_characterization (org : OrgDetect)
    (dirListing : Option (List String)) (fs : String → FileRead) :
    (mainExitsNonzero org dirListing fs = true ↔
      org = OrgDetect.noOrg ∨
        (getTemplateFiles dirListing ≠ [] ∧
         ∃ f ∈ getTemplateFiles dirListing, (upsertTemplate fs f).1 = false)) ∧
    (∀ u, mainExitsNonzero (OrgDetect.connected u) none fs = false) ∧
    (∀ u entries, getTemplateFiles (some entries) = [] →
      mainExitsNonzero (OrgDetect.connected u) (some entries) fs = false) := by
  refine ⟨?_, fun u => rfl, fun u entries h => ?_⟩
  · cases org with
    | noOrg => simp [mainExitsNonzero]
    | connected u =>
        simp only [mainExitsNonzero]
        cases hfl : getTemplateFiles dirListing with
        | nil => simp
        | cons a l => simp [List.countP_pos_iff]
  · simp [mainExitsNonzero, h]

/-! ## Association-list lemmas -/

theorem lookupT_eq_none_iff {κ α : Type} [DecidableEq κ] (l : List (κ × α)) (k : κ) :
    lookupT l k = none ↔ k ∉ keysOf l := by
  induction l with
  | nil => simp [lookupT, keysOf]
  | cons p rest ih =>
      rcases p with ⟨k', v⟩
      by_cases h : k' = k
      · subst h
        simp [lookupT, keysOf]
      · simp [lookupT, keysOf, h, ih]
        tauto

theorem lookupT_some_mem {κ α : Type} [DecidableEq κ] {l : List (κ × α)} {k : κ} {v : α}
    (h : lookupT l k = some v) : (k, v) ∈ l := by
  induction l with
  | nil => simp [lookupT] at h
  | cons p rest ih =>
      rcases p with ⟨k', v'⟩
      by_cases hk : k' = k
      · subst hk
        simp [lookupT] at h
        subst h
        exact List.mem_cons_self _ _
      · simp [lookupT, hk] at h
        exact List.mem_cons_of_mem _ (ih h)

theorem mem_keysOf_of_lookupT_some {κ α : Type} [DecidableEq κ] {l : List (κ × α)}
    {k : κ} {v : α} (h : lookupT l k = some v) : k ∈ keysOf l := by
  have := lookupT_some_mem h
  exact List.mem_map_of_mem (·.1) this

theorem lookupT_of_mem_nodup {κ α : Type} [DecidableEq κ] {l : List (κ × α)} {k : κ} {v : α}
    (hn : (keysOf l).Nodup) (hm : (k, v) ∈ l) : lookupT l k = some v := by
  induction l with
  | nil => simp at hm
  | cons p rest ih =>
      rcases p with ⟨k', v'⟩
      simp only [keysOf, List.map_cons, List.nodup_cons] at hn
      rcases List.mem_cons.mp hm with h | h
      · rw [Prod.mk.injEq] at h
        rcases h with ⟨h1, h2⟩
        subst h1; subst h2
        simp [lookupT]
      · have hk : ¬ k' = k := by
          intro he
          subst he
          exact hn.1 (List.mem_map_of_mem (·.1) h)
        simp only [lookupT, if_neg hk]
        exact ih hn.2 h

theorem keysOf_updateT (l : List (String × Trace)) (tid : String) (tr : Trace) :
    keysOf (updateT l tid tr) = keysOf l := by
  induction l with
  | nil => rfl
  | cons p rest ih =>
      by_cases h : p.1 = tid
      · simp [updateT, keysOf, h] at ih ⊢
        exact ih
      · simp [updateT, keysOf, h] at ih ⊢
        exact ih

theorem lookupT_updateT_ne (l : List (String × Trace)) (tid k : String) (tr : Trace)
    (h : ¬ k = tid) : lookupT (updateT l tid tr) k = lookupT l k := by
  have ht : ¬ tid = k := fun he => h he.symm
  induction l with
  | nil => rfl
  | cons p rest ih =>
      by_cases hp : p.1 = tid
      · have hpk : ¬ p.1 = k := by rw [hp]; exact ht
        simp only [updateT, if_pos hp, lookupT, if_neg ht, if_neg hpk]
        exact ih
      · simp only [updateT, if_neg hp, lookupT]
        split <;> [rfl; exact ih]

theorem mem_keysOf_removeT {l : List (String × Trace)} {tid k : String}
    (h : k ∈ keysOf (removeT l tid)) : ¬ k = tid ∧ k ∈ keysOf l := by
  induction l with
  | nil => simp [removeT, keysOf] at h
  | cons p rest ih =>
      by_cases hp : p.1 = tid
      · simp only [removeT, if_pos hp] at h
        rcases ih h with ⟨h1, h2⟩
        exact ⟨h1, by simp [keysOf]; right; simpa [keysOf] using h2⟩
      · simp only [removeT, if_neg hp, keysOf, List.map_cons, List.mem_cons] at h
        rcases h with h | h
        · subst h
          exact ⟨fun he => hp he, by simp [keysOf]⟩
        · rcases ih (by simpa [keysOf] using h) with ⟨h1, h2⟩
          exact ⟨h1, by simp [keysOf]; right; simpa [keysOf] using h2⟩

theorem lookupT_removeT_ne (l : List (String × Trace)) (tid k : String)
    (h : ¬ k = tid) : lookupT (removeT l tid) k = lookupT l k := by
  induction l with
  | nil => rfl
  | cons p rest ih =>
      by_cases hp : p.1 = tid
      · have hpk : ¬ p.1 = k := by rw [hp]; exact fun he => h he.symm
        simp only [removeT, if_pos hp, lookupT, if_neg hpk]
        exact ih
      · simp only [removeT, if_neg hp, lookupT]
        split <;> [rfl; exact ih]

theorem nodup_keysOf_removeT {l : List (String × Trace)} {tid : String}
    (h : (keysOf l).Nodup) : (keysOf (removeT l tid)).Nodup := by
  induction l with
  | nil => simp [removeT, keysOf]
  | cons p rest ih =>
      simp only [keysOf, List.map_cons, List.nodup_cons] at h
      by_cases hp : p.1 = tid
      · simp only [removeT, if_pos hp]
        exact ih h.2
      · simp only [removeT, if_neg hp, keysOf, List.map_cons, List.nodup_cons]
        refine ⟨fun hc => ?_, ih h.2⟩
        rcases mem_keysOf_removeT (by simpa [keysOf] using hc) with ⟨_, hmem⟩
        exact h.1 (by simpa [keysOf] using hmem)

theorem nodup_map_mem_inj {α β : Type} {f : α → β} {l : List α}
    (hn : (l.map f).Nodup) {p q : α} (hp : p ∈ l) (hq : q ∈ l)
    (hf : f p = f q) : p = q := by
  induction l with
  | nil => simp at hp
  | cons a rest ih =>
      simp only [List.map_cons, List.nodup_cons] at hn
      rcases List.mem_cons.mp hp with h1 | h1 <;> rcases List.mem_cons.mp hq with h2 | h2
      · rw [h1, h2]
      · exfalso
        apply hn.1
        rw [h1] at hf
        rw [hf]
        exact List.mem_map_of_mem f h2
      · exfalso
        apply hn.1
        rw [h2] at hf
        rw [← hf]
        exact List.mem_map_of_mem f h1
      · exact ih hn.2 h1 h2

theorem keysOf_filter_sublist (l : List (String × Trace)) (p : String × Trace → Bool) :
    (keysOf (l.filter p)).Sublist (keysOf l) := by
  simpa [keysOf] using List.Sublist.map (fun q : String × Trace => q.1)
    (List.filter_sublist l)

theorem keys_filter_disjoint {l : List (String × Trace)} {p : String × Trace → Bool}
    (hn : (keysOf l).Nodup) {k : String}
    (h1 : k ∈ keysOf (l.filter p)) (h2 : k ∈ keysOf (l.filter (fun x => !p x))) :
    False := by
  simp only [keysOf, List.mem_map] at h1 h2
  rcases h1 with ⟨a, ha, hak⟩
  rcases h2 with ⟨b, hb, hbk⟩
  rcases List.mem_filter.mp ha with ⟨hamem, hacond⟩
  rcases List.mem_filter.mp hb with ⟨hbmem, hbcond⟩
  have hab : a = b := nodup_map_mem_inj hn hamem hbmem (by rw [hak, hbk])
  rw [hab] at hacond
  simp [hacond] at hbcond

/-! ## Engine invariant: exactly-once finalization -/

/-- Core registry invariant: ingest-log trace ids are duplicate-free,
live keys are duplicate-free, and no live key was already ingested. -/
def engineInv (st : EngineState) : Prop :=
  (st.ingested.map (·.traceId)).Nodup ∧
  (keysOf st.live).Nodup ∧
  ∀ k, k ∈ keysOf st.live → k ∉ st.ingested.map (·.traceId)

theorem engineInv_initState : engineInv initState := by
  refine ⟨List.nodup_nil, List.nodup_nil, ?_⟩
  intro k h
  simp [initState, keysOf] at h

theorem engineInv_record (sd : List String) (st : EngineState) (tid stage : String)
    (ts : Nat) (h : engineInv st) :
    engineInv (recordArrival sd st tid stage ts).2 := by
  obtain ⟨hIng, hLive, hDisj⟩ := h
  unfold recordArrival
  cases hidx : stageIdx sd stage with
  | none => exact ⟨hIng, hLive, hDisj⟩
  | some idx =>
      by_cases hre : tid ∈ st.ingested.map (·.traceId)
      · simp only [if_pos hre]
        exact ⟨hIng, hLive, hDisj⟩
      · simp only [if_neg hre]
        cases hlk : lookupT st.live tid with
        | none =>
            have htid : tid ∉ keysOf st.live := (lookupT_eq_none_iff _ _).mp hlk
            by_cases hcov : covered sd [(stage, ts)]
            · simp only [if_pos hcov]
              refine ⟨?_, hLive, ?_⟩
              · simpa using ⟨by simpa using hre, hIng⟩
              · intro k hk
                simp only [List.map_cons, List.mem_cons] at *
                rintro (he | he)
                · exact htid (he ▸ hk)
                · exact hDisj k hk he
            · simp only [if_neg hcov]
              refine ⟨hIng, ?_, ?_⟩
              · simpa [keysOf] using ⟨by simpa [keysOf] using htid, hLive⟩
              · intro k hk
                simp only [keysOf, List.map_cons, List.mem_cons] at hk
                rcases hk with he | hk
                · subst he
                  exact hre
                · exact hDisj k (by simpa [keysOf] using hk)
        | some tr =>
            by_cases hdup : (lookupT tr.arrivals stage).isSome
            · simp only [if_pos hdup]
              exact ⟨hIng, hLive, hDisj⟩
            · simp only [if_neg hdup]
              by_cases hcov : covered sd (appendArrival sd idx tr stage ts).arrivals
              · simp only [if_pos hcov]
                refine ⟨?_, nodup_keysOf_removeT hLive, ?_⟩
                · simpa using ⟨by simpa using hre, hIng⟩
                · intro k hk
                  rcases mem_keysOf_removeT hk with ⟨hk1, hk2⟩
                  simp only [List.map_cons, List.mem_cons]
                  rintro (he | he)
                  · exact hk1 he
                  · exact hDisj k hk2 he
              · simp only [if_neg hcov]
                refine ⟨hIng, ?_, ?_⟩
                · rw [keysOf_updateT]
                  exact hLive
                · intro k hk
                  rw [keysOf_updateT] at hk
                  exact hDisj k hk

theorem engineInv_sweep (st : EngineState) (now deadline : Nat)
    (h : engineInv st) : engineInv (sweepTimeouts st now deadline).2 := by
  obtain ⟨hIng, hLive, hDisj⟩ := h
  unfold sweepTimeouts
  refine ⟨?_, ?_, ?_⟩
  · simp only [List.map_append, List.map_map]
    rw [List.nodup_append]
    refine ⟨?_, hIng, ?_⟩
    · have : (st.live.filter (fun p => isStale now deadline p.2)).map
          ((fun ft : FinalizedTrace => ft.traceId) ∘
            (fun p : String × Trace => (⟨p.1, TStatus.timedOut, p.2.arrivals⟩ : FinalizedTrace)))
          = keysOf (st.live.filter (fun p => isStale now deadline p.2)) := by
        simp [keysOf]
      rw [this]
      exact (keysOf_filter_sublist _ _).nodup hLive
    · intro a ha
      simp only [List.mem_map, Function.comp] at ha
      rcases ha with ⟨p, hp, hpa⟩
      have : a ∈ keysOf st.live := by
        rcases List.mem_filter.mp hp with ⟨hmem, _⟩
        exact hpa ▸ List.mem_map_of_mem (·.1) hmem
      exact hDisj a this
  · exact (keysOf_filter_sublist _ _).nodup hLive
  · intro k hk
    simp only [List.map_append, List.map_map, List.mem_append]
    rintro (he | he)
    · simp only [List.mem_map, Function.comp] at he
      rcases he with ⟨p, hp, hpk⟩
      have hk2 : k ∈ keysOf (st.live.filter (fun q => isStale now deadline q.2)) :=
        hpk ▸ List.mem_map_of_mem (·.1) hp
      exact keys_filter_disjoint hLive hk2 (by simpa using hk)
    · have : k ∈ keysOf st.live := by
        simp only [keysOf, List.mem_map] at hk ⊢
        rcases hk with ⟨p, hp, hpk⟩
        exact ⟨p, (List.mem_filter.mp hp).1, hpk⟩
      exact hDisj k this he

theorem engineInv_step (sd : List String) (st : EngineState) (o : Op)
    (h : engineInv st) : engineInv (step sd st o) := by
  cases o with
  | record tid stage ts => exact engineInv_record sd st tid stage ts h
  | sweep now deadline => exact engineInv_sweep st now deadline h

theorem engineInv_foldl (sd : List String) (ops : List Op) (st : EngineState)
    (h : engineInv st) : engineInv (ops.foldl (step sd) st) := by
  induction ops generalizing st with
  | nil => exact h
  | cons o rest ih => exact ih _ (engineInv_step sd st o h)

theorem engineInv_run (sd : List String) (ops : List Op) :
    engineInv (run sd ops) :=
  engineInv_foldl sd ops initState engineInv_initState

theorem nodup_countP_le_one {α β : Type} [DecidableEq β] (f : α → β) (l : List α)
    (hn : (l.map f).Nodup) (b : β) :
    l.countP (fun a => f a == b) ≤ 1 := by
  induction l with
  | nil => simp
  | cons a rest ih =>
      simp only [List.map_cons, List.nodup_cons] at hn
      rw [List.countP_cons]
      by_cases hb : f a = b
      · have hz : rest.countP (fun x => f x == b) = 0 := by
          rw [List.countP_eq_zero]
          intro x hx
          simp only [beq_iff_eq]
          intro hfx
          exact hn.1 (hb ▸ hfx ▸ List.mem_map_of_mem f hx)
        simp [hz, hb]
      · simp only [beq_iff_eq, hb, decide_eq_true_eq, if_neg hb]
        simpa using ih hn.2

/-- Witness for the C10 theorem: a connected org with a directory listing
holding no json files returns normally (no nonzero exit). -/
theorem sdocs_main_exit_characterization_witness :
    mainExitsNonzero (OrgDetect.connected "user") (some ["README.md"])
      (fun _ => FileRead.unreadable) = false :=
  (sdocs_main_exit_characterization (OrgDetect.connected "user") (some ["README.md"])
    (fun _ => FileRead.unreadable)).2.2 "user" ["README.md"] (by decide)

/-! ## Theorems for the correlation engine -/

/-- C6: arrivals delivered in reverse stage order (sink at 100, ingest at
10, transform at 50) finalize the trace with status OutOfOrder, all
three timestamps retained, and computed durations
ingest-to-transform 40, transform-to-sink 50 and end-to-end 90. -/
theorem out_of_order_trace_retains_data :
    (run sd3 [Op.record "t6" "sink" 100, Op.record "t6" "ingest" 10,
              Op.record "t6" "transform" 50]).ingested =
      [⟨"t6", TStatus.outOfOrder, [("sink", 100), ("ingest", 10), ("transform", 50)]⟩] ∧
    pairDuration [("sink", 100), ("ingest", 10), ("transform", 50)] "ingest" "transform"
      = some 40 ∧
    pairDuration [("sink", 100), ("ingest", 10), ("transform", 50)] "transform" "sink"
      = some 50 ∧
    (endToEndRaw sd3 [("sink", 100), ("ingest", 10), ("transform", 50)]).map
      (fun raw => max raw 0) = some 90 := by
  refine ⟨by decide, by decide, by decide, by decide⟩

/-- C3: across any sequence of recordArrival and sweepTimeouts
operations (any interleaving, each operation atomic per the spec's
serialization requirement), a trace id occurs at most once in the
ingest log: no trace is finalized and handed to the aggregator twice. -/
theorem trace_finalized_at_most_once (sd : List String) (ops : List Op)
    (tid : String) :
    ((run sd ops).ingested.filter (fun ft => ft.traceId == tid)).length ≤ 1 := by
  have hn := (engineInv_run sd ops).1
  rw [← List.countP_eq_length_filter]
  exact nodup_countP_le_one (fun ft : FinalizedTrace => ft.traceId) _ hn tid

/-- C4: a second recordArrival with an already-recorded (traceId, stage)
pair is an idempotent no-op: it returns DuplicateArrival and leaves the
live map and the ingest log unchanged; concretely, recording ingest for
trace t3 at time 0 and again at time 5 returns DuplicateArrival and
leaves the ingest timestamp at 0. -/
theorem duplicate_arrival_is_noop :
    (∀ (sd : List String) (st : EngineState) (tid stage : String) (ts idx : Nat)
        (tr : Trace),
      stageIdx sd stage = some idx →
      lookupT st.live tid = some tr →
      (lookupT tr.arrivals stage).isSome = true →
      (recordArrival sd st tid stage ts).1 = RecordResult.duplicateArrival ∧
      (recordArrival sd st tid stage ts).2.live = st.live ∧
      (recordArrival sd st tid stage ts).2.ingested = st.ingested) ∧
    ((recordArrival sd3 (recordArrival sd3 initState "t3" "ingest" 0).2
        "t3" "ingest" 5).1 = RecordResult.duplicateArrival ∧
      (lookupT (recordArrival sd3 (recordArrival sd3 initState "t3" "ingest" 0).2
          "t3" "ingest" 5).2.live "t3").map (fun tr => lookupT tr.arrivals "ingest")
        = some (some 0)) := by
  constructor
  · intro sd st tid stage ts idx tr hidx hlk hdup
    unfold recordArrival
    simp only [hidx]
    by_cases hre : tid ∈ st.ingested.map (·.traceId)
    · rw [if_pos hre]
      exact ⟨rfl, rfl, rfl⟩
    · rw [if_neg hre]
      simp only [hlk]
      rw [if_pos hdup]
      exact ⟨rfl, rfl, rfl⟩
  · constructor <;> decide

/-- Guard for C5 runs: every record operation for the designated trace
id uses the first pipeline stage (the trace receives only its first
stage's arrival). -/
def opOk (tid : String) : Op → Bool
  | Op.record t s _ => !(t == tid) || (s == "ingest")
  | Op.sweep _ _ => true

/-- Invariant for C5: the designated trace, when live, holds exactly one
arrival (at the ingest stage), and no ingest-log entry for it is
Completed. -/
def c5Inv (tid : String) (st : EngineState) : Prop :=
  (∀ tr, lookupT st.live tid = some tr → ∃ t, tr.arrivals = [("ingest", t)]) ∧
  (∀ ft ∈ st.ingested, ft.traceId = tid → ¬ ft.status = TStatus.completed)

theorem c5Inv_initState (tid : String) : c5Inv tid initState := by
  constructor
  · intro tr htr
    simp [initState, lookupT] at htr
  · intro ft hft
    simp [initState] at hft

theorem covered_single_ingest (ts : Nat) : covered sd3 [("ingest", ts)] = false := by
  rfl

theorem c5Inv_record (st : EngineState) (tid tid2 stage : String) (ts : Nat)
    (hEng : engineInv st) (h : c5Inv tid st)
    (hok : opOk tid (Op.record tid2 stage ts) = true) :
    c5Inv tid (recordArrival sd3 st tid2 stage ts).2 := by
  obtain ⟨hLiveInv, hIngInv⟩ := h
  by_cases htid : tid2 = tid
  · subst htid
    have hstage : stage = "ingest" := by
      simp only [opOk, Bool.or_eq_true, Bool.not_eq_true', beq_eq_false_iff_ne,
        beq_iff_eq] at hok
      rcases hok with hc | hc
      · exact absurd rfl hc
      · exact hc
    subst hstage
    unfold recordArrival
    simp only [(by decide : stageIdx sd3 "ingest" = some 0)]
    by_cases hre : tid2 ∈ st.ingested.map (·.traceId)
    · simp only [if_pos hre]
      exact ⟨hLiveInv, hIngInv⟩
    · simp only [if_neg hre]
      cases hlk : lookupT st.live tid2 with
      | none =>
          rw [covered_single_ingest ts, if_neg (by simp)]
          constructor
          · intro tr htr
            have heq : some (⟨ts, [("ingest", ts)], TStatus.inProgress⟩ : Trace)
                = some tr := by
              rw [← htr]
              simp [lookupT]
            cases heq
            exact ⟨ts, rfl⟩
          · exact hIngInv
      | some tr =>
          rcases hLiveInv tr hlk with ⟨t, harr⟩
          have hdup : (lookupT tr.arrivals "ingest").isSome = true := by
            rw [harr]
            rfl
          simp only [if_pos hdup]
          exact ⟨hLiveInv, hIngInv⟩
  · have htid2 : ¬ tid = tid2 := fun he => htid he.symm
    unfold recordArrival
    cases hidx : stageIdx sd3 stage with
    | none => exact ⟨hLiveInv, hIngInv⟩
    | some idx =>
        by_cases hre : tid2 ∈ st.ingested.map (·.traceId)
        · simp only [if_pos hre]
          exact ⟨hLiveInv, hIngInv⟩
        · simp only [if_neg hre]
          cases hlk : lookupT st.live tid2 with
          | none =>
              by_cases hcov : covered sd3 [(stage, ts)]
              · simp only [if_pos hcov]
                refine ⟨hLiveInv, ?_⟩
                intro ft hft hfid
                rcases List.mem_cons.mp hft with he | he
                · exfalso
                  apply htid
                  rw [← hfid, he]
                · exact hIngInv ft he hfid
              · simp only [if_neg hcov]
                refine ⟨?_, hIngInv⟩
                intro tr htr
                simp only [lookupT, if_neg htid] at htr
                exact hLiveInv tr htr
          | some tr =>
              by_cases hdup : (lookupT tr.arrivals stage).isSome
              · simp only [if_pos hdup]
                exact ⟨hLiveInv, hIngInv⟩
              · simp only [if_neg hdup]
                by_cases hcov : covered sd3 (appendArrival sd3 idx tr stage ts).arrivals
                · simp only [if_pos hcov]
                  constructor
                  · intro tr2 htr2
                    rw [lookupT_removeT_ne st.live tid2 tid htid2] at htr2
                    exact hLiveInv tr2 htr2
                  · intro ft hft hfid
                    rcases List.mem_cons.mp hft with he | he
                    · exfalso
                      apply htid
                      rw [← hfid, he]
                    · exact hIngInv ft he hfid
                · simp only [if_neg hcov]
                  refine ⟨?_, hIngInv⟩
                  intro tr2 htr2
                  rw [lookupT_updateT_ne st.live tid2 tid _ htid2] at htr2
                  exact hLiveInv tr2 htr2

theorem c5Inv_sweep (st : EngineState) (tid : String) (now deadline : Nat)
    (hEng : engineInv st) (h : c5Inv tid st) :
    c5Inv tid (sweepTimeouts st now deadline).2 := by
  obtain ⟨hLiveInv, hIngInv⟩ := h
  unfold sweepTimeouts
  constructor
  · intro tr htr
    have hmem := lookupT_some_mem htr
    have hmem2 : (tid, tr) ∈ st.live := (List.mem_filter.mp hmem).1
    exact hLiveInv tr (lookupT_of_mem_nodup hEng.2.1 hmem2)
  · intro ft hft hfid
    simp only [List.mem_append] at hft
    rcases hft with hft | hft
    · simp only [List.mem_map] at hft
      rcases hft with ⟨p, _, hpe⟩
      rw [← hpe]
      simp
    · exact hIngInv ft hft hfid

theorem c5Inv_foldl (tid : String) (ops : List Op) (st : EngineState)
    (hEng : engineInv st) (h : c5Inv tid st)
    (hok : ∀ o ∈ ops, opOk tid o = true) :
    c5Inv tid (ops.foldl (step sd3) st) := by
  induction ops generalizing st with
  | nil => exact h
  | cons o rest ih =>
      have h1 : opOk tid o = true := hok o (List.mem_cons_self _ _)
      have h2 : ∀ o2 ∈ rest, opOk tid o2 = true :=
        fun o2 ho2 => hok o2 (List.mem_cons_of_mem _ ho2)
      refine ih _ (engineInv_step sd3 st o hEng) ?_ h2
      cases o with
      | record t s ts2 => exact c5Inv_record st tid t s ts2 hEng ⟨h.1, h.2⟩ h1
      | sweep now2 d2 => exact c5Inv_sweep st tid now2 d2 hEng ⟨h.1, h.2⟩

/-- C5: a trace that receives only its first stage's arrival and then no
further events for longer than the per-stage deadline is finalized as
TimedOut by the next sweep, and across any operation sequence in which
the trace only ever receives its first stage, no ingest-log entry for it
is ever Completed. -/
theorem single_stage_trace_times_out (tid : String) (ts now deadline : Nat)
    (ops : List Op) (hok : ops.all (opOk tid) = true)
    (hd : deadline < now - ts) :
    (sweepTimeouts (run sd3 [Op.record tid "ingest" ts]) now deadline).1 =
      [⟨tid, TStatus.timedOut, [("ingest", ts)]⟩] ∧
    ∀ ft ∈ (run sd3 ops).ingested, ft.traceId = tid →
      ¬ ft.status = TStatus.completed := by
  constructor
  · have hrun : run sd3 [Op.record tid "ingest" ts] =
        { live := [(tid, ⟨ts, [("ingest", ts)], TStatus.inProgress⟩)],
          ingested := [], duplicates := 0 } := by
      show (recordArrival sd3 initState tid "ingest" ts).2 = _
      unfold recordArrival
      simp only [(by decide : stageIdx sd3 "ingest" = some 0)]
      rw [if_neg (by simp [initState] : ¬ tid ∈ initState.ingested.map (·.traceId))]
      rw [covered_single_ingest ts, if_neg (by simp)]
      rfl
    rw [hrun]
    have hstale : isStale now deadline ⟨ts, [("ingest", ts)], TStatus.inProgress⟩ = true := by
      simp [isStale, lastActivity, hd]
    simp [sweepTimeouts, hstale]
  · exact (c5Inv_foldl tid ops initState engineInv_initState (c5Inv_initState tid)
      (fun o ho => List.all_eq_true.mp hok o ho)).2

/-- Witness for the C5 theorem: spec scenario B (ingest at 0, deadline
1000, sweep at 1500). -/
theorem single_stage_trace_times_out_witness :
    (sweepTimeouts (run sd3 [Op.record "t2" "ingest" 0]) 1500 1000).1 =
      [⟨"t2", TStatus.timedOut, [("ingest", 0)]⟩] :=
  (single_stage_trace_times_out "t2" 0 1500 1000
    [Op.record "t2" "ingest" 0, Op.sweep 1500 1000] (by decide) (by decide)).1

theorem bumpOutcome_transStats (A : Aggregator) (s : TStatus) :
    (bumpOutcome A s).transStats = A.transStats := by
  cases s <;> rfl

theorem bumpOutcome_endToEnd (A : Aggregator) (s : TStatus) :
    (bumpOutcome A s).endToEndStats = A.endToEndStats := by
  cases s <;> rfl

theorem bumpOutcome_anomalies (A : Aggregator) (s : TStatus) :
    (bumpOutcome A s).anomalies = A.anomalies := by
  cases s <;> rfl

theorem clampFold_min_nonneg (stt : StageStats) (raw : Int)
    (h : ∀ m, stt.minD = some m → 0 ≤ m) :
    ∀ m, (clampFold stt raw).minD = some m → 0 ≤ m := by
  intro m hm
  simp only [clampFold, foldD] at hm
  cases ho : stt.minD with
  | none =>
      rw [ho] at hm
      simp only [Option.some.injEq] at hm
      rw [← hm]
      exact le_max_right raw 0
  | some m0 =>
      rw [ho] at hm
      simp only [Option.some.injEq] at hm
      rw [← hm]
      exact le_min (h m0 ho) (le_max_right raw 0)

theorem minsOK_updateTransStats (arr : List (String × Nat)) (p : String × String) :
    ∀ (l : List ((String × String) × StageStats)),
    (∀ stt, lookupT l p = some stt → ∀ m, stt.minD = some m → 0 ≤ m) →
    ∀ stt, lookupT (updateTransStats arr l) p = some stt →
    ∀ m, stt.minD = some m → 0 ≤ m := by
  intro l
  induction l with
  | nil =>
      intro _ stt hstt
      simp [updateTransStats, lookupT] at hstt
  | cons q rest ih =>
      rcases q with ⟨qp, qstt⟩
      intro h stt hstt
      by_cases hq : qp = p
      · subst hq
        have hbase : ∀ m, qstt.minD = some m → 0 ≤ m :=
          h qstt (by simp [lookupT])
        have hls : lookupT (updateTransStats arr ((qp, qstt) :: rest)) qp
            = some (match rawDuration arr qp.1 qp.2 with
                    | none => qstt
                    | some raw => clampFold qstt raw) := by
          simp [updateTransStats, lookupT]
        rw [hls, Option.some.injEq] at hstt
        cases hr : rawDuration arr qp.1 qp.2 with
        | none =>
            rw [hr] at hstt
            rw [← hstt]
            exact hbase
        | some raw =>
            rw [hr] at hstt
            rw [← hstt]
            exact clampFold_min_nonneg qstt raw hbase
      · simp only [updateTransStats, lookupT, if_neg hq] at hstt
        refine ih ?_ stt hstt
        intro stt2 hstt2
        exact h stt2 (by simp only [lookupT, if_neg hq]; exact hstt2)

theorem lookupT_const_initStats (l : List (String × String)) (p : String × String)
    (stt : StageStats)
    (h : lookupT (l.map (fun q => (q, initStats))) p = some stt) : stt = initStats := by
  induction l with
  | nil => simp [lookupT] at h
  | cons q rest ih =>
      simp only [List.map_cons, lookupT] at h
      by_cases hq : q = p
      · rw [if_pos hq] at h
        exact (Option.some.injEq _ _).mp h.symm
      · rw [if_neg hq] at h
        exact ih h

/-- Minimum nonnegativity invariant over an aggregator. -/
def aggMinsOK (A : Aggregator) : Prop :=
  (∀ p stt, lookupT A.transStats p = some stt → ∀ m, stt.minD = some m → 0 ≤ m) ∧
  (∀ m, A.endToEndStats.minD = some m → 0 ≤ m)

theorem aggMinsOK_initAgg (sd : List String) : aggMinsOK (initAgg sd) := by
  constructor
  · intro p stt hstt m hm
    rw [lookupT_const_initStats (transitions sd) p stt hstt] at hm
    simp [initStats] at hm
  · intro m hm
    simp [initAgg, initStats] at hm

theorem aggMinsOK_ingestOne (sd : List String) (A : Aggregator) (ft : FinalizedTrace)
    (h : aggMinsOK A) : aggMinsOK (ingestOne sd A ft) := by
  obtain ⟨h1, h2⟩ := h
  constructor
  · intro p stt hstt m hm
    rw [ingestOne, bumpOutcome_transStats] at hstt
    exact minsOK_updateTransStats ft.arrivals p A.transStats (h1 p) stt hstt m hm
  · intro m hm
    rw [ingestOne, bumpOutcome_endToEnd] at hm
    simp only [ingestCore] at hm
    cases hr : endToEndRaw sd ft.arrivals with
    | none =>
        rw [hr] at hm
        exact h2 m hm
    | some raw =>
        rw [hr] at hm
        exact clampFold_min_nonneg A.endToEndStats raw h2 m hm

theorem aggMinsOK_foldl (sd : List String) (fts : List FinalizedTrace)
    (A : Aggregator) (h : aggMinsOK A) :
    aggMinsOK (fts.foldl (ingestOne sd) A) := by
  induction fts generalizing A with
  | nil => exact h
  | cons ft rest ih => exact ih _ (aggMinsOK_ingestOne sd A ft h)

theorem anomalies_foldl (sd : List String) (fts : List FinalizedTrace)
    (A : Aggregator) :
    (fts.foldl (ingestOne sd) A).anomalies
      = A.anomalies + (fts.map (countAnoms sd)).sum := by
  induction fts generalizing A with
  | nil => simp
  | cons ft rest ih =>
      simp only [List.foldl_cons, List.map_cons, List.sum_cons]
      rw [ih]
      have hstep : (ingestOne sd A ft).anomalies = A.anomalies + countAnoms sd ft := by
        rw [ingestOne, bumpOutcome_anomalies]
        rfl
      rw [hstep, Nat.add_assoc]

/-- C7: every finalized trace ingested by the aggregator has its
negative adjacent-stage durations clamped to zero and counted as
anomalies: every reported transition minimum and the end-to-end minimum
is nonnegative, and the anomaly counter equals the total number of
negative adjacent-pair raw durations over the ingested traces. -/
theorem aggregator_minimums_nonneg (sd : List String) (fts : List FinalizedTrace) :
    (∀ p m, transMin (ingestAll sd fts) p = some m → 0 ≤ m) ∧
    (∀ m, (ingestAll sd fts).endToEndStats.minD = some m → 0 ≤ m) ∧
    (ingestAll sd fts).anomalies = (fts.map (countAnoms sd)).sum := by
  have hOK := aggMinsOK_foldl sd fts (initAgg sd) (aggMinsOK_initAgg sd)
  refine ⟨?_, hOK.2, ?_⟩
  · intro p m hm
    unfold transMin at hm
    cases hl : lookupT (ingestAll sd fts).transStats p with
    | none =>
        rw [hl] at hm
        cases hm
    | some stt =>
        rw [hl] at hm
        exact hOK.1 p stt hl m hm
  · have := anomalies_foldl sd fts (initAgg sd)
    simpa [initAgg] using this

/-- Witness for the C7 theorem: a trace with transform timestamp 3 before
ingest timestamp 5 (clock skew) yields a clamped transition minimum of 0,
which is nonnegative by the theorem. -/
theorem aggregator_minimums_nonneg_witness : (0 : Int) ≤ 0 :=
  (aggregator_minimums_nonneg sd3
    [⟨"w", TStatus.completed, [("ingest", 5), ("transform", 3), ("sink", 10)]⟩]).1
    ("ingest", "transform") 0 (by decide)

/-- Witness for the C4 theorem at the concrete t3 scenario of the spec. -/
theorem duplicate_arrival_is_noop_witness :
    (recordArrival sd3 (recordArrival sd3 initState "t3" "ingest" 0).2
      "t3" "ingest" 5).1 = RecordResult.duplicateArrival :=
  (duplicate_arrival_is_noop.1 sd3 (recordArrival sd3 initState "t3" "ingest" 0).2
    "t3" "ingest" 5 0 ⟨0, [("ingest", 0)], TStatus.inProgress⟩ (by decide) (by decide)
    (by decide)).1

end LiquibaseChanges
